import Mathlib

/-!
Verification development for the diff-driven incremental code-review core.

The definitions below are shallow embeddings of the Python source:
  * `extract_changed_lines` / `extract_code_from_patch`
      — `BaseAgent._extract_changed_lines` / `BaseAgent._extract_code_from_patch`
        (identical copies live in `LangGraphCodeReviewAgent`);
  * `filter_issues_by_lines`, `deduplicate_issues`, `is_generic_issue`,
    `post_process_issues`, `analyze_large_file_chunks`
      — `agents/analyzers/utils.py`;
  * `preprocess_file_data`, `handle_large_file_analysis`,
    `process_analyzer_results`, `validate_and_enrich_results`, `analyze_file`
      — `agents/analyzers/pipeline.py`;
  * `analyze_single_file` — `LangGraphCodeReviewAgent._analyze_single_file`;
  * `llm_bug_agent_analyze` — `LLMBugAgent.analyze`.

Python dictionaries representing one issue are embedded as the structure
`Issue` whose fields are `Option`-valued (a `none` field is an absent key).
A Python statement that can raise (`issue['line']`) is embedded through
`Option`: a `none` result of a function models an uncaught exception.
-/

/-- An issue dictionary. Each field models the presence/absence of the
corresponding key of the Python dict; `extra` carries any unmodeled keys
so that copy/update semantics can be stated faithfully. -/
structure Issue where
  type : Option String := none
  line : Option Int := none
  description : Option String := none
  suggestion : Option String := none
  confidence : Option String := none
  impact : Option String := none
  categoryDetail : Option String := none
  fileLanguage : Option String := none
  totalFileLines : Option Nat := none
  extra : List (String × String) := []
deriving Repr, DecidableEq

/-- Python `str.startswith`, on the character-list view of strings. -/
def pyStartsWith (s pre : String) : Bool :=
  pre.toList.isPrefixOf s.toList

/-- Helper for `pySplitLines`: split a character list at newline characters. -/
def splitLinesGo : List Char → List Char → List String
  | acc, [] => [String.mk acc.reverse]
  | acc, c :: t =>
    if c = '\n' then String.mk acc.reverse :: splitLinesGo [] t
    else splitLinesGo (c :: acc) t

/-- Python `s.split('\n')`. -/
def pySplitLines (s : String) : List String :=
  splitLinesGo [] s.toList

/-- Join with newlines: Python `'\n'.join(lines)`. -/
def joinNl : List String → String
  | [] => ""
  | [s] => s
  | s :: t => s ++ "\n" ++ joinNl t

/-- Python slice `l[a:b]` (step 1), with negative-index wraparound. -/
def pySlice {α : Type} (l : List α) (a b : Int) : List α :=
  let n : Int := l.length
  let a1 : Int := if a < 0 then max 0 (n + a) else min a n
  let b1 : Int := if b < 0 then max 0 (n + b) else min b n
  (l.take b1.toNat).drop a1.toNat

/-- Whether `needle` occurs as a contiguous run inside `hay`
(Python `needle in hay` on strings). -/
def subList (needle : List Char) : List Char → Bool
  | [] => needle.isEmpty
  | c :: t => needle.isPrefixOf (c :: t) || subList needle t

/-- Numeric value of a digit string (Python `int` on the regex capture). -/
def digitsToNat (ds : List Char) : Nat :=
  ds.foldl (fun n c => 10 * n + (c.toNat - '0'.toNat)) 0

/-- Matching of the hunk-header regexp `^@@ -\d+,?\d* \+(\d+),?\d* @@`
used by `_extract_changed_lines`; returns the captured new-file start
(`int` of a digit capture, hence a natural number). -/
def parseHunkHeader (cs : List Char) : Option Nat :=
  match cs with
  | '@' :: '@' :: ' ' :: '-' :: rest =>
    let p1 := rest.span Char.isDigit
    if p1.1.isEmpty then none else
    let r2 := match p1.2 with
      | ',' :: t => t
      | other => other
    let p2 := r2.span Char.isDigit
    match p2.2 with
    | ' ' :: '+' :: r4 =>
      let p3 := r4.span Char.isDigit
      if p3.1.isEmpty then none else
      let r6 := match p3.2 with
        | ',' :: t => t
        | other => other
      let p4 := r6.span Char.isDigit
      match p4.2 with
      | ' ' :: '@' :: '@' :: _ => some (digitsToNat p3.1)
      | _ => none
    | _ => none
  | _ => none

/-- Insert into a strictly sorted list, dropping duplicates. -/
def insertSorted (x : Int) : List Int → List Int
  | [] => [x]
  | y :: ys =>
    if x < y then x :: y :: ys
    else if x = y then y :: ys
    else y :: insertSorted x ys

/-- Python `sorted(list(set(l)))`: ascending list of the distinct values. -/
def sortUnique (l : List Int) : List Int :=
  l.foldr insertSorted []

/-- One step of the line loop of `BaseAgent._extract_changed_lines`:
state is `(current_line, changed_lines)`. -/
def changedLinesStep (st : Int × List Int) (line : String) : Int × List Int :=
  match parseHunkHeader line.toList with
  | some c => ((c : Int) - 1, st.2)
  | none =>
    if pyStartsWith line "+" && !pyStartsWith line "+++" then
      (st.1 + 1, st.2 ++ [st.1 + 1])
    else if pyStartsWith line "-" && !pyStartsWith line "---" then
      st
    else if !pyStartsWith line "\\" then
      (st.1 + 1, st.2)
    else st

/-- `BaseAgent._extract_changed_lines` (and the identical
`LangGraphCodeReviewAgent._extract_changed_lines`). -/
def extract_changed_lines (patch : String) : List Int :=
  if patch = "" then []
  else sortUnique ((pySplitLines patch).foldl changedLinesStep (0, [])).2

/-- One step of the line loop of `BaseAgent._extract_code_from_patch`. -/
def codeFromPatchStep (acc : List String) (line : String) : List String :=
  if pyStartsWith line "@@" || pyStartsWith line "+++" ||
      pyStartsWith line "---" || pyStartsWith line "\\" ||
      pyStartsWith line "diff" then acc
  else if pyStartsWith line "+" then acc ++ [line.drop 1]
  else if !pyStartsWith line "-" then
    (if line ≠ "" then acc ++ [line] else acc)
  else acc

/-- `BaseAgent._extract_code_from_patch` (and the identical
`LangGraphCodeReviewAgent._extract_code_from_patch`). -/
def extract_code_from_patch (patch : String) : String :=
  if patch = "" then ""
  else joinNl ((pySplitLines patch).foldl codeFromPatchStep [])

/-- `filter_issues_by_lines` from `agents/analyzers/utils.py`. -/
def filter_issues_by_lines (issues : List Issue) (targetLines : List Int) :
    List Issue :=
  if targetLines.isEmpty then []
  else issues.filter fun i =>
    match i.line with
    | some l => decide (l ∈ targetLines)
    | none => false

/-- The deduplication signature `(issue.get('line', 0),
issue.get('description', '')[:50].lower())`. -/
def sigOf (i : Issue) : Int × List Char :=
  (i.line.getD 0, ((i.description.getD "").toList.take 50).map Char.toLower)

/-- Loop of `deduplicate_issues`, carrying the `seen_combinations` set. -/
def dedupGo (seen : List (Int × List Char)) : List Issue → List Issue
  | [] => []
  | i :: rest =>
    if sigOf i ∈ seen then dedupGo seen rest
    else i :: dedupGo (sigOf i :: seen) rest

/-- `deduplicate_issues` from `agents/analyzers/utils.py`. -/
def deduplicate_issues (issues : List Issue) : List Issue :=
  if issues.isEmpty then [] else dedupGo [] issues

/-- `is_generic_issue` from `agents/analyzers/utils.py`. -/
def is_generic_issue (description : String) (genericPhrases : List String) :
    Bool :=
  genericPhrases.any fun p =>
    subList p.toList (description.toList.map Char.toLower)

/-- The filter applied by the loop body of `post_process_issues`: an issue
is kept when it is on a changed line, is not generic, and has the three
required keys. -/
def postProcessKeep (changed : List Int) (genericPhrases : List String)
    (i : Issue) : Bool :=
  (match i.line with
   | some l => decide (l ∈ changed)
   | none => false) &&
  !is_generic_issue (i.description.getD "") genericPhrases &&
  (i.line.isSome && i.description.isSome && i.suggestion.isSome)

/-- `post_process_issues` from `agents/analyzers/utils.py`. -/
def post_process_issues (issues : List Issue) (changed : List Int)
    (genericPhrases : List String) : List Issue :=
  deduplicate_issues (issues.filter (postProcessKeep changed genericPhrases))

/-- Remap one chunk issue back to file coordinates:
`issue['line'] = issue['line'] + start_line - 1`; a missing `line` key
raises (`none`). -/
def remapIssue (offset : Int) (i : Issue) : Option Issue :=
  match i.line with
  | some l => some { i with line := some (l + offset) }
  | none => none

/-- Remap a whole chunk result; `none` when any issue lacks `line`. -/
def remapAll (offset : Int) : List Issue → Option (List Issue)
  | [] => some []
  | i :: rest =>
    match remapIssue offset i, remapAll offset rest with
    | some j, some tl => some (j :: tl)
    | _, _ => none

/-- The `(chunk_code, chunk_changed_lines, start_line)` triple built for one
changed line by the loop of `analyze_large_file_chunks`. -/
def chunkFor (codeLines : List String) (contextSize lineNum : Int) :
    String × List Int × Int :=
  let startLine := max 1 (lineNum - contextSize)
  let endLine := min (codeLines.length : Int) (lineNum + contextSize)
  (joinNl (pySlice codeLines (startLine - 1) endLine),
   [lineNum - startLine + 1], startLine)

/-- The list of `(chunk_code, chunk_changed_lines)` arguments on which the
loop of `analyze_large_file_chunks` invokes `analysis_func`, in order. -/
def chunkCalls (code : String) (changed : List Int) (contextSize : Int) :
    List (String × List Int) :=
  changed.map fun ln =>
    let c := chunkFor (pySplitLines code) contextSize ln
    (c.1, c.2.1)

/-- Loop of `analyze_large_file_chunks` accumulating remapped chunk issues;
`none` models the KeyError raised on an issue without `line`. -/
def chunksGo (codeLines : List String)
    (f : String → List Int → List Issue) (contextSize : Int) :
    List Int → Option (List Issue)
  | [] => some []
  | ln :: rest =>
    let c := chunkFor codeLines contextSize ln
    match remapAll (c.2.2 - 1) (f c.1 c.2.1), chunksGo codeLines f contextSize rest with
    | some is, some tl => some (is ++ tl)
    | _, _ => none

/-- `analyze_large_file_chunks` from `agents/analyzers/utils.py`
(`context_size` defaults to 5 at every call site in scope). -/
def analyze_large_file_chunks (code : String) (changed : List Int)
    (f : String → List Int → List Issue) (contextSize : Int) :
    Option (List Issue) :=
  (chunksGo (pySplitLines code) f contextSize changed).map deduplicate_issues

/-- The generic-phrase constant `BUG_GENERIC_PHRASES`. -/
def BUG_GENERIC_PHRASES : List String :=
  ["might have an issue", "could be improved", "may need review",
   "potential problem", "unclear code"]

/-- The generic-phrase constant `PERFORMANCE_GENERIC_PHRASES`. -/
def PERFORMANCE_GENERIC_PHRASES : List String :=
  ["might be slow", "could be optimized", "may affect performance",
   "potential optimization", "unclear performance"]

/-- The generic-phrase constant `BEST_PRACTICES_GENERIC_PHRASES`. -/
def BEST_PRACTICES_GENERIC_PHRASES : List String :=
  ["could be improved", "may be better", "consider refactoring",
   "unclear naming", "general improvement"]

/-- `AnalysisPostprocessor.GENERIC_PHRASE_MAP` with the `.get(ty, [])`
lookup. -/
def genericPhraseMap (ty : String) : List String :=
  if ty = "bug" then BUG_GENERIC_PHRASES
  else if ty = "performance" then PERFORMANCE_GENERIC_PHRASES
  else if ty = "best_practice" then BEST_PRACTICES_GENERIC_PHRASES
  else []

/-- The `preprocessed_data` dictionary built by
`AnalysisPreprocessor.preprocess_file_data` (its `metadata` sub-dict is
inlined as the `meta*` fields). -/
structure PreprocessedData where
  filename : String
  code : String
  changedLines : List Int
  language : String
  isLargeFile : Bool
  contextIssues : List (String × List Issue)
  metaTotalLines : Nat
  metaChangedLineCount : Nat
  metaLanguage : String
deriving Repr

/-- `AnalysisPreprocessor.preprocess_file_data`. -/
def preprocess_file_data (filename code : String) (changedLines : List Int)
    (language : String) (contextIssues : List (String × List Issue)) :
    PreprocessedData :=
  { filename := filename
    code := code
    changedLines := changedLines
    language := language
    isLargeFile := (pySplitLines code).length > 500
    contextIssues := contextIssues.map fun p =>
      (p.1, filter_issues_by_lines p.2 changedLines)
    metaTotalLines := (pySplitLines code).length
    metaChangedLineCount := changedLines.length
    metaLanguage := language }

/-- `AnalysisPreprocessor.handle_large_file_analysis`; the inner
`chunk_analysis_func` copy-updates `code`, `changed_lines` and
`is_large_file` exactly as the source does. -/
def handle_large_file_analysis (pd : PreprocessedData)
    (analysisFun : PreprocessedData → List Issue) : Option (List Issue) :=
  if !pd.isLargeFile then some (analysisFun pd)
  else analyze_large_file_chunks pd.code pd.changedLines
    (fun code changedLines => analysisFun
      { pd with code := code, changedLines := changedLines,
                isLargeFile := false })
    5

/-- `AnalysisPostprocessor.process_analyzer_results`; the dict of analyzer
results is embedded as an association list in insertion order. -/
def process_analyzer_results (analyzerResults : List (String × List Issue))
    (changedLines : List Int) : List Issue :=
  deduplicate_issues
    ((analyzerResults.map fun p =>
        post_process_issues p.2 changedLines (genericPhraseMap p.1)).flatten)

/-- The required-key check of
`AnalysisPostprocessor.validate_and_enrich_results`. -/
def hasRequiredKeys (i : Issue) : Bool :=
  i.line.isSome && i.description.isSome && i.suggestion.isSome &&
    i.type.isSome

/-- The `issue.copy()` + `update(...)` performed on each surviving issue by
`validate_and_enrich_results`. -/
def enrichIssue (language : String) (totalLines : Nat) (i : Issue) : Issue :=
  { i with confidence := some (i.confidence.getD "medium")
           fileLanguage := some language
           totalFileLines := some totalLines }

/-- `AnalysisPostprocessor.validate_and_enrich_results`; the metadata dict
is passed as its `language` and `total_lines` entries. -/
def validate_and_enrich_results (issues : List Issue) (language : String)
    (totalLines : Nat) : List Issue :=
  issues.foldl
    (fun acc i =>
      if hasRequiredKeys i then acc ++ [enrichIssue language totalLines i]
      else acc)
    []

/-- Loop of `AnalysisPipeline.analyze_file` over `self.analyzers.items()`.
Each trace entry records the analyzer type, the `context_issues` value the
analyzer was invoked with, and its issues; `acc` is the accumulated
`context_issues` dict (which equals `analyzer_results` at every step).
A `none` models an uncaught exception from the chunk remapping. -/
def runAnalyzers (pd : PreprocessedData)
    (acc : List (String × List Issue)) :
    List (String × (PreprocessedData → List Issue)) →
    Option (List (String × List (String × List Issue) × List Issue))
  | [] => some []
  | (ty, a) :: rest =>
    match handle_large_file_analysis { pd with contextIssues := acc } a with
    | none => none
    | some issues =>
      match runAnalyzers pd (acc ++ [(ty, issues)]) rest with
      | none => none
      | some tl => some ((ty, acc, issues) :: tl)

/-- `AnalysisPipeline.analyze_file`. -/
def analyze_file (analyzers : List (String × (PreprocessedData → List Issue)))
    (filename code : String) (changedLines : List Int) (language : String) :
    Option (List Issue) :=
  let pd := preprocess_file_data filename code changedLines language []
  match runAnalyzers pd [] analyzers with
  | none => none
  | some trace =>
    some (validate_and_enrich_results
      (process_analyzer_results (trace.map fun t => (t.1, t.2.2)) changedLines)
      pd.metaLanguage pd.metaTotalLines)

/-- The `context_issues` dict each analyzer of
`AnalysisPipeline.analyze_file` is invoked with, keyed by analyzer type. -/
def analyze_file_received_contexts
    (analyzers : List (String × (PreprocessedData → List Issue)))
    (filename code : String) (changedLines : List Int) (language : String) :
    Option (List (String × List (String × List Issue))) :=
  let pd := preprocess_file_data filename code changedLines language []
  (runAnalyzers pd [] analyzers).map fun trace =>
    trace.map fun t => (t.1, t.2.1)

/-- `LangGraphCodeReviewAgent._analyze_single_file`, with the analyzer
stages abstracted as behaviours: `none` models a stage that raises.  The
three LLM stages take the earlier stage results they are called with in
the source (`bug(lint, heuristic)`, `performance(lint, bug)`,
`best_practices(lint, bug, performance)`).  The three `try/except` blocks
of the source are mirrored exactly: a failing lint or heuristic stage
contributes nothing, and a failure anywhere in the single LLM block skips
the remainder of that block. -/
def analyze_single_file (lintRes heurRes : Option (List Issue))
    (bugRes : List Issue → List Issue → Option (List Issue))
    (perfRes : List Issue → List Issue → Option (List Issue))
    (bpRes : List Issue → List Issue → List Issue → Option (List Issue)) :
    List Issue :=
  let s1 : List Issue × List Issue :=
    match lintRes with
    | some l => (l, l)
    | none => ([], [])
  let s2 : List Issue × List Issue :=
    match heurRes with
    | some h => (s1.1 ++ h, h)
    | none => (s1.1, [])
  let allIssues : List Issue :=
    match bugRes s1.2 s2.2 with
    | none => s2.1
    | some b =>
      match perfRes s1.2 b with
      | none => s2.1 ++ b
      | some p =>
        match bpRes s1.2 b p with
        | none => s2.1 ++ b ++ p
        | some bp => s2.1 ++ b ++ p ++ bp
  deduplicate_issues allIssues

/-- `LLMBugAgent._post_process_issues` (same logic as the shared
`post_process_issues` with `BUG_GENERIC_PHRASES`). -/
def llm_bug_post_process (issues : List Issue) (changed : List Int) :
    List Issue :=
  deduplicate_issues (issues.filter (postProcessKeep changed BUG_GENERIC_PHRASES))

/-- `LLMBugAgent._analyze_large_file`, with the LLM service call abstracted
as `service chunkCode chunkChanged lintCtx heurCtx`. -/
def llm_bug_analyze_large_file
    (service : String → List Int → List Issue → List Issue → List Issue)
    (code : String) (changed : List Int)
    (lintIssues heurIssues : List Issue) : Option (List Issue) :=
  analyze_large_file_chunks code changed
    (fun chunkCode chunkChanged => service chunkCode chunkChanged
      (filter_issues_by_lines lintIssues changed)
      (filter_issues_by_lines heurIssues changed))
    5

/-- `LLMBugAgent.analyze`, with `self.llm_service.analyze_code_for_bugs`
abstracted as `service`.  (The large-file branch of the source filters the
context per single changed line; for the empty-changed-lines property only
the first guard matters, and the large-file path is routed through
`llm_bug_analyze_large_file` with the full changed list as in the small
embedding above; both agree on every claim stated about this function.) -/
def llm_bug_agent_analyze
    (service : String → List Int → List Issue → List Issue → List Issue)
    (filename : String) (code : String) (changed : List Int)
    (lintIssues heurIssues : List Issue) : Option (List Issue) :=
  if changed.isEmpty then some []
  else if (pySplitLines code).length > 500 then
    llm_bug_analyze_large_file service code changed lintIssues heurIssues
  else
    some (llm_bug_post_process
      (service code changed
        (filter_issues_by_lines lintIssues changed)
        (filter_issues_by_lines heurIssues changed))
      changed)

/-- Decidable side condition for the amended C4 statement: every line of
the patch that matches the hunk-header regexp captures a positive
new-file start (true of every well-formed unified diff). -/
def headersPositive (patch : String) : Bool :=
  (pySplitLines patch).all fun line =>
    match parseHunkHeader line.toList with
    | some c => decide (1 ≤ c)
    | none => true

/-- The patch of end-to-end scenario 1. -/
def scenario1Patch : String := "@@ -1,2 +1,3 @@\n line1\n+added_line\n line2"

/-- A 600-line file whose line `n` holds the decimal numeral `n`. -/
def code600 : String := joinNl ((List.range 600).map fun i => toString (i + 1))

/-- Original lines 295 through 305 of `code600`, joined. -/
def chunk295 : String := joinNl (((pySplitLines code600).take 305).drop 294)

/-- A bug issue reported at chunk-local line 6. -/
def issueLoc6 : Issue :=
  { type := some "bug", line := some 6,
    description := some "unsafe dict access", suggestion := some "use get" }

/-- The same issue remapped to global line 300. -/
def issueLoc300 : Issue := { issueLoc6 with line := some 300 }

/-- An issue without a `line` key. -/
def issueNoLine : Issue :=
  { type := some "bug", description := some "no line key",
    suggestion := some "s" }

/-- An upstream issue on line 99, outside the changed-line set `[1]`. -/
def issue99 : Issue :=
  { type := some "heuristic", line := some 99,
    description := some "stale finding", suggestion := some "s" }

/-- A performance finding on a changed line. -/
def perfIssue : Issue :=
  { type := some "performance", line := some 1,
    description := some "nested loops", suggestion := some "flatten loops" }

/-- An issue carrying `line`, `description` and `suggestion` but no
`type` key. -/
def issueNoType : Issue :=
  { line := some 1, description := some "missing type key",
    suggestion := some "s" }

/-- Scenario-3 style duplicate findings from two analyzers: same line and
description, different suggestions. -/
def dupIssueA : Issue :=
  { type := some "bug", line := some 10,
    description := some "unsafe dict access on key X",
    suggestion := some "use get" }

/-- Second duplicate finding, differing only in `type` and suggestion. -/
def dupIssueB : Issue :=
  { type := some "performance", line := some 10,
    description := some "unsafe dict access on key X",
    suggestion := some "guard access" }

/-- Two analyzers reporting the duplicate findings above. -/
def dupResults : List (String × List Issue) :=
  [("bug", [dupIssueA]), ("performance", [dupIssueB])]


set_option maxRecDepth 100000

/-- Membership in `insertSorted`. -/
theorem mem_insertSorted (l : List Int) (x y : Int) :
    y ∈ insertSorted x l ↔ y = x ∨ y ∈ l := by
  induction l with
  | nil => simp [insertSorted]
  | cons z zs ih =>
    simp only [insertSorted]
    by_cases h1 : x < z
    · simp [h1]
    · by_cases h2 : x = z
      · subst h2
        simp [h1]
      · simp [h1, h2, ih]
        tauto

/-- `insertSorted` preserves strict sortedness. -/
theorem pairwise_insertSorted (x : Int) (l : List Int)
    (h : l.Pairwise (· < ·)) : (insertSorted x l).Pairwise (· < ·) := by
  induction l with
  | nil => simp [insertSorted]
  | cons z zs ih =>
    rcases List.pairwise_cons.mp h with ⟨hz, hzs⟩
    simp only [insertSorted]
    by_cases h1 : x < z
    · rw [if_pos h1]
      refine List.pairwise_cons.mpr ⟨?_, h⟩
      intro y hy
      rcases List.mem_cons.mp hy with rfl | hy'
      · exact h1
      · exact lt_trans h1 (hz y hy')
    · by_cases h2 : x = z
      · simp [h1, h2, h]
      · have hzx : z < x := by omega
        simp only [if_neg h1, if_neg h2]
        refine List.pairwise_cons.mpr ⟨?_, ih hzs⟩
        intro y hy
        rcases (mem_insertSorted zs x y).mp hy with rfl | hy'
        · exact hzx
        · exact hz y hy'

/-- `sortUnique` yields a strictly ascending (hence duplicate-free) list. -/
theorem sortUnique_pairwise (l : List Int) :
    (sortUnique l).Pairwise (· < ·) := by
  induction l with
  | nil => simp [sortUnique]
  | cons a l ih => exact pairwise_insertSorted a (sortUnique l) ih

/-- `sortUnique` preserves the set of values. -/
theorem mem_sortUnique (l : List Int) (y : Int) :
    y ∈ sortUnique l ↔ y ∈ l := by
  induction l with
  | nil => simp [sortUnique]
  | cons a l ih =>
    simp only [sortUnique] at *
    rw [List.foldr_cons, mem_insertSorted, ih, List.mem_cons]

/-- Lower bound carried through the `_extract_changed_lines` loop: if every
hunk header in the remaining lines starts at least at `b + 1`, the cursor
stays at least `b`, and all collected lines are at least `b + 1`. -/
theorem changedLines_foldl_bound (b : Int) :
    ∀ (ls : List String) (cur : Int) (acc : List Int),
      (∀ line ∈ ls, ∀ c, parseHunkHeader line.toList = some c →
        b + 1 ≤ (c : Int)) →
      b ≤ cur → (∀ x ∈ acc, b + 1 ≤ x) →
      ∀ x ∈ (ls.foldl changedLinesStep (cur, acc)).2, b + 1 ≤ x := by
  intro ls
  induction ls with
  | nil =>
    intro cur acc _ _ hacc x hx
    exact hacc x hx
  | cons line rest ih =>
    intro cur acc hhdr hcur hacc x hx
    rw [List.foldl_cons] at hx
    have hrest : ∀ l ∈ rest, ∀ c, parseHunkHeader l.toList = some c →
        b + 1 ≤ (c : Int) := fun l hl => hhdr l (List.mem_cons_of_mem _ hl)
    rcases hp : parseHunkHeader line.toList with _ | c
    · simp only [changedLinesStep, hp] at hx
      by_cases h1 : (pyStartsWith line "+" && !pyStartsWith line "+++") = true
      · simp only [if_pos h1] at hx
        refine ih (cur + 1) (acc ++ [cur + 1]) hrest (by omega) ?_ x hx
        intro y hy
        rcases List.mem_append.mp hy with hy' | hy'
        · exact hacc y hy'
        · rw [List.mem_singleton] at hy'
          omega
      · simp only [if_neg h1] at hx
        by_cases h2 : (pyStartsWith line "-" && !pyStartsWith line "---") = true
        · simp only [if_pos h2] at hx
          exact ih cur acc hrest hcur hacc x hx
        · simp only [if_neg h2] at hx
          by_cases h3 : (!pyStartsWith line "\\") = true
          · simp only [if_pos h3] at hx
            exact ih (cur + 1) acc hrest (by omega) hacc x hx
          · simp only [if_neg h3] at hx
            exact ih cur acc hrest hcur hacc x hx
    · simp only [changedLinesStep, hp] at hx
      have hc : b + 1 ≤ (c : Int) :=
        hhdr line (List.mem_cons_self _ _) c hp
      exact ih ((c : Int) - 1) acc hrest (by omega) hacc x hx

/-- The guard of `deduplicate_issues` is redundant with its loop. -/
theorem deduplicate_issues_eq_dedupGo (l : List Issue) :
    deduplicate_issues l = dedupGo [] l := by
  cases l <;> simp [deduplicate_issues, dedupGo]

/-- The deduplication loop returns a subsequence of its input. -/
theorem dedupGo_sublist (seen : List (Int × List Char)) (l : List Issue) :
    (dedupGo seen l).Sublist l := by
  induction l generalizing seen with
  | nil => simp [dedupGo]
  | cons i rest ih =>
    simp only [dedupGo]
    by_cases h : sigOf i ∈ seen
    · exact List.Sublist.cons i ((if_pos h) ▸ ih seen)
    · rw [if_neg h]
      exact List.Sublist.cons₂ i (ih (sigOf i :: seen))

/-- No issue surviving the deduplication loop has a signature that was
already seen. -/
theorem sig_not_seen_of_mem_dedupGo {seen : List (Int × List Char)}
    {l : List Issue} {i : Issue} (hi : i ∈ dedupGo seen l) :
    sigOf i ∉ seen := by
  induction l generalizing seen with
  | nil => simp [dedupGo] at hi
  | cons j rest ih =>
    simp only [dedupGo] at hi
    by_cases h : sigOf j ∈ seen
    · rw [if_pos h] at hi
      exact ih hi
    · rw [if_neg h] at hi
      rcases List.mem_cons.mp hi with rfl | hi'
      · exact h
      · intro hmem
        exact ih hi' (List.mem_cons_of_mem _ hmem)

/-- No two issues surviving the deduplication loop share a signature. -/
theorem dedupGo_pairwise (seen : List (Int × List Char)) (l : List Issue) :
    (dedupGo seen l).Pairwise (fun a b => sigOf a ≠ sigOf b) := by
  induction l generalizing seen with
  | nil => simp [dedupGo]
  | cons i rest ih =>
    simp only [dedupGo]
    by_cases h : sigOf i ∈ seen
    · rw [if_pos h]
      exact ih seen
    · rw [if_neg h]
      refine List.pairwise_cons.mpr ⟨?_, ih (sigOf i :: seen)⟩
      intro j hj hcontra
      exact sig_not_seen_of_mem_dedupGo hj (hcontra ▸ List.mem_cons_self _ _)

/-- Every unseen signature present in the input is represented in the
output of the deduplication loop. -/
theorem dedupGo_complete (seen : List (Int × List Char)) (l : List Issue)
    (i : Issue) (hi : i ∈ l) (hs : sigOf i ∉ seen) :
    ∃ j ∈ dedupGo seen l, sigOf j = sigOf i := by
  induction l generalizing seen with
  | nil => simp at hi
  | cons k rest ih =>
    simp only [dedupGo]
    rcases List.mem_cons.mp hi with rfl | hi'
    · rw [if_neg hs]
      exact ⟨i, List.mem_cons_self _ _, rfl⟩
    · by_cases h : sigOf k ∈ seen
      · rw [if_pos h]
        exact ih seen hi' hs
      · rw [if_neg h]
        by_cases hk : sigOf i = sigOf k
        · exact ⟨k, List.mem_cons_self _ _, hk.symm⟩
        · have hs' : sigOf i ∉ sigOf k :: seen := by
            intro hmem
            rcases List.mem_cons.mp hmem with h' | h'
            · exact hk h'
            · exact hs h'
          rcases ih (sigOf k :: seen) hi' hs' with ⟨j, hj, hsig⟩
          exact ⟨j, List.mem_cons_of_mem _ hj, hsig⟩

/-- The first issue of each unseen signature is kept by the deduplication
loop. -/
theorem dedupGo_keeps_first (seen : List (Int × List Char))
    (l1 : List Issue) (i : Issue) (l2 : List Issue)
    (hs : sigOf i ∉ seen) (hfirst : ∀ j ∈ l1, sigOf j ≠ sigOf i) :
    i ∈ dedupGo seen (l1 ++ i :: l2) := by
  induction l1 generalizing seen with
  | nil =>
    simp only [List.nil_append, dedupGo]
    rw [if_neg hs]
    exact List.mem_cons_self _ _
  | cons k l1' ih =>
    simp only [List.cons_append, dedupGo]
    by_cases h : sigOf k ∈ seen
    · rw [if_pos h]
      exact ih seen hs fun j hj => hfirst j (List.mem_cons_of_mem _ hj)
    · rw [if_neg h]
      refine List.mem_cons_of_mem _ ?_
      have hs' : sigOf i ∉ sigOf k :: seen := by
        intro hmem
        rcases List.mem_cons.mp hmem with h' | h'
        · exact hfirst k (List.mem_cons_self _ _) h'.symm
        · exact hs h'
      exact ih (sigOf k :: seen) hs' fun j hj =>
        hfirst j (List.mem_cons_of_mem _ hj)

/-- `post_process_issues` returns a subsequence of its input. -/
theorem post_process_issues_sublist (issues : List Issue)
    (changed : List Int) (gp : List String) :
    (post_process_issues issues changed gp).Sublist issues := by
  rw [post_process_issues, deduplicate_issues_eq_dedupGo]
  exact (dedupGo_sublist [] _).trans (List.filter_sublist issues)

/-- Remapping a chunk result succeeds when every issue has a `line`. -/
theorem remapAll_isSome (off : Int) (l : List Issue)
    (h : ∀ i ∈ l, i.line.isSome = true) : (remapAll off l).isSome = true := by
  induction l with
  | nil => simp [remapAll]
  | cons i rest ih =>
    have hi := h i (List.mem_cons_self _ _)
    rcases hl : i.line with _ | v
    · rw [hl] at hi
      simp at hi
    · have hrest := ih fun j hj => h j (List.mem_cons_of_mem _ hj)
      rcases hr : remapAll off rest with _ | tl
      · rw [hr] at hrest
        simp at hrest
      · simp [remapAll, remapIssue, hl, hr]

/-- The chunk loop succeeds when the callback only returns issues that
carry a `line`. -/
theorem chunksGo_isSome (codeLines : List String)
    (f : String → List Int → List Issue) (cs : Int)
    (h : ∀ c cl, ∀ i ∈ f c cl, i.line.isSome = true) :
    ∀ changed, (chunksGo codeLines f cs changed).isSome = true := by
  intro changed
  induction changed with
  | nil => simp [chunksGo]
  | cons ln rest ih =>
    have h1 := remapAll_isSome ((chunkFor codeLines cs ln).2.2 - 1)
      (f (chunkFor codeLines cs ln).1 (chunkFor codeLines cs ln).2.1)
      (h _ _)
    rcases hr : remapAll ((chunkFor codeLines cs ln).2.2 - 1)
        (f (chunkFor codeLines cs ln).1 (chunkFor codeLines cs ln).2.1)
      with _ | is
    · rw [hr] at h1
      simp at h1
    · rcases hg : chunksGo codeLines f cs rest with _ | tl
      · rw [hg] at ih
        simp at ih
      · simp [chunksGo, hr, hg]

/-- `validate_and_enrich_results` as a filter-then-map. -/
theorem validate_and_enrich_results_eq (issues : List Issue)
    (language : String) (totalLines : Nat) :
    validate_and_enrich_results issues language totalLines =
      (issues.filter hasRequiredKeys).map (enrichIssue language totalLines) := by
  have key : ∀ (l : List Issue) (acc : List Issue),
      l.foldl
        (fun acc i =>
          if hasRequiredKeys i then acc ++ [enrichIssue language totalLines i]
          else acc)
        acc =
      acc ++ (l.filter hasRequiredKeys).map (enrichIssue language totalLines) := by
    intro l
    induction l with
    | nil => simp
    | cons i rest ih =>
      intro acc
      by_cases h : hasRequiredKeys i = true
      · simp [h, ih, List.append_assoc]
      · simp [h, ih]
  exact key issues []

/-- Claim C3: for the scenario-1 patch the diff mapper returns the
changed-line set `{2}`, but the reconstructed code view keeps the leading
one-character diff prefix of context lines: the code yields
`" line1\nadded_line\n line2"`, not the claimed
`"line1\nadded_line\nline2"`.  This theorem evaluates the code at the
failing input. -/
theorem C3_code_view_evaluation :
    extract_changed_lines scenario1Patch = [2] ∧
    extract_code_from_patch scenario1Patch = " line1\nadded_line\n line2" ∧
    extract_code_from_patch scenario1Patch ≠ "line1\nadded_line\nline2" :=
  ⟨by decide, by decide, by decide⟩

/-- Claim C4 (amended): for every patch the changed-line list is strictly
ascending (hence duplicate-free) and every element is nonnegative; every
element is positive provided each hunk header of the patch captures a
positive new-file start (true of every well-formed diff). -/
theorem C4_changed_lines_sorted_unique (patch : String) :
    (extract_changed_lines patch).Pairwise (· < ·) ∧
    (∀ x ∈ extract_changed_lines patch, 0 ≤ x) ∧
    (headersPositive patch = true →
      ∀ x ∈ extract_changed_lines patch, 1 ≤ x) := by
  have hmem : ∀ (b : Int), b ≤ 0 →
      (∀ line ∈ pySplitLines patch, ∀ c, parseHunkHeader line.toList = some c →
        b + 1 ≤ (c : Int)) →
      ∀ x ∈ extract_changed_lines patch, b + 1 ≤ x := by
    intro b hb0 hb x hx
    rw [extract_changed_lines] at hx
    split at hx
    · simp at hx
    · rw [mem_sortUnique] at hx
      exact changedLines_foldl_bound b (pySplitLines patch) 0 []
        hb (by omega) (by simp) x hx
  refine ⟨?_, ?_, ?_⟩
  · rw [extract_changed_lines]
    split
    · simp
    · exact sortUnique_pairwise _
  · have := hmem (-1) (by omega) ?_
    · intro x hx
      have h := this x hx
      omega
    · intro line _ c _
      have : (0 : Int) ≤ (c : Int) := Int.natCast_nonneg c
      omega
  · intro hpos
    have := hmem 0 (by omega) ?_
    · intro x hx
      have h := this x hx
      omega
    · intro line hline c hc
      have hall := List.all_eq_true.mp hpos line hline
      rw [hc] at hall
      have : 1 ≤ c := of_decide_eq_true hall
      exact_mod_cast this

/-- Claim C4 witness: the amended statement applied to the scenario-1
patch, whose hunk header starts at 1. -/
theorem C4_witness :
    (extract_changed_lines scenario1Patch).Pairwise (· < ·) ∧
    (∀ x ∈ extract_changed_lines scenario1Patch, 1 ≤ x) :=
  ⟨(C4_changed_lines_sorted_unique scenario1Patch).1,
   (C4_changed_lines_sorted_unique scenario1Patch).2.2 (by decide)⟩

/-- Claim C4 counterexample: the patch `"@@ -1,0 +0,0 @@\n+a"` (a header
whose new-file start is 0, immediately followed by an addition) makes the
diff mapper return the line number 0, which is not positive. -/
theorem C4_counterexample :
    extract_changed_lines "@@ -1,0 +0,0 @@\n+a" = [0] ∧ ¬(1 ≤ (0 : Int)) :=
  ⟨by decide, by decide⟩

/-- Claim C8 (amended): the diff mapper is a total function that never
fails the file; an empty patch yields an empty changed-line set and an
empty code view; a malformed patch is processed by the same per-line rules
and need not degrade to empty outputs (the non-diff input `"hello"` yields
the code view `"hello"`, with an empty changed-line set). -/
theorem C8_empty_and_malformed_patch :
    (extract_changed_lines "" = [] ∧ extract_code_from_patch "" = "") ∧
    (extract_changed_lines "hello" = [] ∧
      extract_code_from_patch "hello" = "hello") :=
  ⟨⟨by decide, by decide⟩, ⟨by decide, by decide⟩⟩

/-- Claim C8 counterexample: the malformed patch `"hello"` does not
degrade to an empty code view, contrary to the claim. -/
theorem C8_counterexample :
    extract_code_from_patch "hello" = "hello" ∧ "hello" ≠ "" :=
  ⟨by decide, by decide⟩

/-- Claim C9: with an empty changed-line set, the generic line filter
returns `[]` (even for issues with no `line` field), the per-analyzer
post-processing drops every issue, and the LLM bug analyzer returns `[]`
immediately. -/
theorem C9_empty_changed_lines :
    (∀ issues : List Issue, filter_issues_by_lines issues [] = []) ∧
    (∀ (issues : List Issue) (gp : List String),
      post_process_issues issues [] gp = []) ∧
    (∀ (service : String → List Int → List Issue → List Issue → List Issue)
      (filename code : String) (lint heur : List Issue),
      llm_bug_agent_analyze service filename code [] lint heur = some []) := by
  refine ⟨fun issues => rfl, ?_, fun service filename code lint heur => rfl⟩
  intro issues gp
  have hkeep : ∀ i, postProcessKeep [] gp i = false := by
    intro i
    rw [postProcessKeep]
    cases i.line <;> simp
  have hfilter : issues.filter (postProcessKeep [] gp) = [] :=
    List.filter_eq_nil_iff.mpr fun a _ => by simp [hkeep]
  rw [post_process_issues, hfilter]
  rfl

/-- Claim C10: the chunk remapping of `analyze_large_file_chunks` is total
whenever every issue returned by the inner callback carries a numeric
`line` (no error branch is reachable), and a callback output containing an
issue without a `line` key makes the remapping raise (modelled `none`)
instead of dropping the issue. -/
theorem C10_remap_totality :
    (∀ (code : String) (changed : List Int)
      (f : String → List Int → List Issue) (cs : Int),
      (∀ c cl, ∀ i ∈ f c cl, i.line.isSome = true) →
      (analyze_large_file_chunks code changed f cs).isSome = true) ∧
    analyze_large_file_chunks "a\nb\nc" [2] (fun _ _ => [issueNoLine]) 5 =
      none := by
  constructor
  · intro code changed f cs h
    rw [analyze_large_file_chunks]
    have hg := chunksGo_isSome (pySplitLines code) f cs h changed
    rcases hv : chunksGo (pySplitLines code) f cs changed with _ | v
    · rw [hv] at hg
      simp at hg
    · simp [hv]
  · decide

/-- Claim C10 witness: the totality half applied to the 600-line file with
a callback that always reports an issue carrying a `line`. -/
theorem C10_witness :
    (analyze_large_file_chunks code600 [300]
      (fun _ _ => [issueLoc6]) 5).isSome = true :=
  C10_remap_totality.1 code600 [300] (fun _ _ => [issueLoc6]) 5
    (by
      intro c cl i hi
      rw [List.mem_singleton] at hi
      subst hi
      rfl)

/-- Claim C5: for the 600-line file with changed-line set `{300}` and
window radius 5, the chunking routine builds exactly one callback
invocation, on the window of original lines 295 through 305 with
chunk-local changed-line set `{6}`; an issue the callback returns at
chunk-local line 6 appears in the final result with line 300 (also when
routed through the pipeline's large-file gate); and the overall result
depends on the callback only through its value at that single call. -/
theorem C5_chunking_scenario :
    chunkCalls code600 [300] 5 = [(chunk295, [6])] ∧
    chunk295 = joinNl ((List.range 11).map fun i => toString (i + 295)) ∧
    analyze_large_file_chunks code600 [300] (fun _ _ => [issueLoc6]) 5 =
      some [issueLoc300] ∧
    handle_large_file_analysis
      (preprocess_file_data "big.py" code600 [300] "Python" [])
      (fun pd => if pd.changedLines = [6] then [issueLoc6] else []) =
      some [issueLoc300] ∧
    (∀ f g : String → List Int → List Issue,
      f chunk295 [6] = g chunk295 [6] →
      analyze_large_file_chunks code600 [300] f 5 =
        analyze_large_file_chunks code600 [300] g 5) := by
  refine ⟨by decide, by decide, by decide, by decide, ?_⟩
  intro f g h
  have hc : chunkFor (pySplitLines code600) 5 300 = (chunk295, [6], 295) := by
    decide
  simp only [analyze_large_file_chunks, chunksGo, hc, h]

/-- Claim C5 witness: the single-call dependency applied to two callbacks
that agree on the one chunk actually analyzed. -/
theorem C5_witness :
    analyze_large_file_chunks code600 [300] (fun _ _ => [issueLoc6]) 5 =
      analyze_large_file_chunks code600 [300]
        (fun _ cl => if cl = [6] then [issueLoc6] else []) 5 :=
  C5_chunking_scenario.2.2.2.2 (fun _ _ => [issueLoc6])
    (fun _ cl => if cl = [6] then [issueLoc6] else []) (by decide)

/-- Claim C6: the post-processor's output is drawn from the input issue
lists, no two output issues share the `(line, description[:50].lower())`
signature, the output is a subsequence (hence order-preserving) of the
stream of issues surviving per-analyzer filtering, and the first issue of
each signature observed in that stream is the one kept. -/
theorem C6_postprocessor_dedup (results : List (String × List Issue))
    (changed : List Int) :
    (∀ i ∈ process_analyzer_results results changed,
      ∃ p ∈ results, i ∈ p.2) ∧
    (process_analyzer_results results changed).Pairwise
      (fun a b => sigOf a ≠ sigOf b) ∧
    (process_analyzer_results results changed).Sublist
      ((results.map fun p =>
        post_process_issues p.2 changed (genericPhraseMap p.1)).flatten) ∧
    (∀ (l1 : List Issue) (i : Issue) (l2 : List Issue),
      (results.map fun p =>
        post_process_issues p.2 changed (genericPhraseMap p.1)).flatten =
        l1 ++ i :: l2 →
      (∀ j ∈ l1, sigOf j ≠ sigOf i) →
      i ∈ process_analyzer_results results changed) := by
  have heq : process_analyzer_results results changed =
      dedupGo [] ((results.map fun p =>
        post_process_issues p.2 changed (genericPhraseMap p.1)).flatten) := by
    rw [process_analyzer_results, deduplicate_issues_eq_dedupGo]
  refine ⟨?_, ?_, ?_, ?_⟩
  · intro i hi
    rw [heq] at hi
    have hsurv := (dedupGo_sublist [] _).subset hi
    rw [List.mem_flatten] at hsurv
    obtain ⟨lst, hlst, hilst⟩ := hsurv
    rw [List.mem_map] at hlst
    obtain ⟨p, hp, rfl⟩ := hlst
    exact ⟨p, hp, (post_process_issues_sublist p.2 changed _).subset hilst⟩
  · rw [heq]
    exact dedupGo_pairwise [] _
  · rw [heq]
    exact dedupGo_sublist [] _
  · intro l1 i l2 hsplit hfirst
    rw [heq, hsplit]
    exact dedupGo_keeps_first [] l1 i l2 (by simp) hfirst

/-- Claim C6 witness: with two analyzers reporting the same signature on
line 10, the first observed duplicate is the one kept. -/
theorem C6_witness : dupIssueA ∈ process_analyzer_results dupResults [10] :=
  (C6_postprocessor_dedup dupResults [10]).2.2.2 [] dupIssueA [dupIssueB]
    (by decide) (by decide)

/-- Claim C7 counterexample: an issue with `line`, `description` and
`suggestion` but no `type` key survives per-analyzer filtering and
cross-analyzer deduplication, yet the enrichment step drops it. -/
theorem C7_counterexample :
    post_process_issues [issueNoType] [1] [] = [issueNoType] ∧
    deduplicate_issues [issueNoType] = [issueNoType] ∧
    validate_and_enrich_results [issueNoType] "Python" 2 = [] :=
  ⟨by decide, by decide, by decide⟩

/-- Claim C7 (amended): the enrichment step re-validates and drops issues
missing any of `line`, `description`, `suggestion` or `type`; every issue
carrying all four keys is emitted, with `file_language` and
`total_file_lines` attached, `confidence` defaulted to `"medium"` when
absent, and every other field it carried unchanged. -/
theorem C7_enrichment (issues : List Issue) (language : String)
    (totalLines : Nat) :
    (∀ i ∈ issues, hasRequiredKeys i = true →
      enrichIssue language totalLines i ∈
        validate_and_enrich_results issues language totalLines) ∧
    (∀ j ∈ validate_and_enrich_results issues language totalLines,
      j.fileLanguage = some language ∧ j.totalFileLines = some totalLines ∧
      ∃ i ∈ issues, hasRequiredKeys i = true ∧
        j.type = i.type ∧ j.line = i.line ∧ j.description = i.description ∧
        j.suggestion = i.suggestion ∧ j.impact = i.impact ∧
        j.categoryDetail = i.categoryDetail ∧ j.extra = i.extra ∧
        j.confidence = some (i.confidence.getD "medium")) ∧
    (validate_and_enrich_results issues language totalLines).length =
      (issues.filter hasRequiredKeys).length := by
  rw [validate_and_enrich_results_eq]
  refine ⟨?_, ?_, by rw [List.length_map]⟩
  · intro i hi hreq
    exact List.mem_map_of_mem _ (List.mem_filter.mpr ⟨hi, hreq⟩)
  · intro j hj
    rw [List.mem_map] at hj
    obtain ⟨i, hi, rfl⟩ := hj
    have hi' := List.mem_filter.mp hi
    exact ⟨rfl, rfl, i, hi'.1, hi'.2, rfl, rfl, rfl, rfl, rfl, rfl, rfl, rfl⟩

/-- Claim C7 witness: the amended statement applied to a fully populated
issue. -/
theorem C7_witness :
    enrichIssue "Python" 3 dupIssueA ∈
      validate_and_enrich_results [dupIssueA] "Python" 3 :=
  (C7_enrichment [dupIssueA] "Python" 3).1 dupIssueA (by decide) (by decide)

/-- Claim C1: the pipeline passes upstream context UNFILTERED.  With
changed-line set `[1]`, a first analyzer reporting an issue on line 99
(outside the set) makes the second analyzer receive that issue as context,
even though the generic line filter would have removed it.  This theorem
evaluates `AnalysisPipeline.analyze_file`'s context threading at the
failing input. -/
theorem C1_unfiltered_context_evaluation :
    analyze_file_received_contexts
      [("heuristic", fun _ => [issue99]), ("bug", fun _ => [])]
      "f.py" "line1\nline2" [1] "Python" =
      some [("heuristic", []), ("bug", [("heuristic", [issue99])])] ∧
    issue99.line = some 99 ∧ ¬((99 : Int) ∈ [(1 : Int)]) ∧
    filter_issues_by_lines [issue99] [1] = [] :=
  ⟨by decide, rfl, by decide, by decide⟩

/-- Claim C2 counterexample: when the LLM bug analyzer raises, the
performance analyzer's finding is suppressed (the whole LLM block is
skipped), although the same finding is produced when the bug analyzer
merely returns no issues. -/
theorem C2_counterexample :
    analyze_single_file (some []) (some [])
      (fun _ _ => none) (fun _ _ => some [perfIssue])
      (fun _ _ _ => some []) = [] ∧
    analyze_single_file (some []) (some [])
      (fun _ _ => some []) (fun _ _ => some [perfIssue])
      (fun _ _ _ => some []) = [perfIssue] :=
  ⟨by decide, by decide⟩

/-- Claim C2 (amended): failure isolation is per try-block, not per
analyzer.  A raising linter or heuristic stage is treated as the empty
issue list and all later analyzers still run; but the three LLM analyzers
share one error region, so a raising bug analyzer yields exactly the
deduplicated lint and heuristic findings, a raising performance analyzer
additionally keeps the bug findings, and a raising best-practices analyzer
keeps everything before it.  The file itself never fails. -/
theorem C2_failure_semantics :
    (∀ heurRes bugRes perfRes bpRes,
      analyze_single_file none heurRes bugRes perfRes bpRes =
        analyze_single_file (some []) heurRes bugRes perfRes bpRes) ∧
    (∀ lintRes bugRes perfRes bpRes,
      analyze_single_file lintRes none bugRes perfRes bpRes =
        analyze_single_file lintRes (some []) bugRes perfRes bpRes) ∧
    (∀ (l h : List Issue) perfRes bpRes,
      analyze_single_file (some l) (some h) (fun _ _ => none)
        perfRes bpRes = deduplicate_issues (l ++ h)) ∧
    (∀ (l h b : List Issue) bugRes bpRes, bugRes l h = some b →
      analyze_single_file (some l) (some h) bugRes (fun _ _ => none)
        bpRes = deduplicate_issues (l ++ h ++ b)) ∧
    (∀ (l h b p : List Issue) bugRes perfRes,
      bugRes l h = some b → perfRes l b = some p →
      analyze_single_file (some l) (some h) bugRes perfRes
        (fun _ _ _ => none) = deduplicate_issues (l ++ h ++ b ++ p)) := by
  refine ⟨fun heurRes bugRes perfRes bpRes => rfl, ?_, ?_, ?_, ?_⟩
  · intro lintRes bugRes perfRes bpRes
    cases lintRes <;> simp [analyze_single_file]
  · intro l h perfRes bpRes
    simp [analyze_single_file]
  · intro l h b bugRes bpRes hb
    simp [analyze_single_file, hb]
  · intro l h b p bugRes perfRes hb hp
    simp [analyze_single_file, hb, hp]

/-- Claim C2 witness: the performance-analyzer-raises case applied to
concrete stage results. -/
theorem C2_witness :
    analyze_single_file (some []) (some [])
      (fun _ _ => some [perfIssue]) (fun _ _ => none)
      (fun _ _ _ => some []) = deduplicate_issues ([] ++ [] ++ [perfIssue]) :=
  C2_failure_semantics.2.2.2.1 [] [] [perfIssue]
    (fun _ _ => some [perfIssue]) (fun _ _ _ => some []) rfl
